import Mathlib

/-!
Verification of the `c-kzg-4844` Rust bindings against their design
specification.

The Rust sources under `bindings/rust/` are embedded shallowly:

* `generated.rs` / `bindings.rs`: the build constants and the FFI value
  types (blobs, 32/48-byte strings, return codes) become plain Lean
  data (byte buffers are `List Nat`, each entry a byte value).
* `bindings/mod.rs` (the current binding, namespace `Bindings`) and the
  legacy `lib.rs` (namespace `LibRs`): the wrapper functions become Lean
  functions.  A wrapper that forwards to the C library takes the C call
  result as an explicit argument, so theorems can quantify over it.
* The C engine itself is not part of the sources; following the design
  document it is modelled algebraically in namespace `Core` over an
  arbitrary field, with G1/G2 exponents represented by field elements
  (the discrete-logarithm abstraction of the pairing check).
-/

/-! ## Build constants, from `bindings/rust/src/bindings/generated.rs` -/

def BYTES_PER_COMMITMENT : Nat := 48

def BYTES_PER_PROOF : Nat := 48

def BYTES_PER_FIELD_ELEMENT : Nat := 32

def FIELD_ELEMENTS_PER_BLOB : Nat := 4096

def BYTES_PER_BLOB : Nat := 131072

def FIELD_ELEMENTS_PER_EXT_BLOB : Nat := 8192

def FIELD_ELEMENTS_PER_CELL : Nat := 64

def BYTES_PER_CELL : Nat := 2048

def CELLS_PER_EXT_BLOB : Nat := 128

/-- From `bindings/rust/src/bindings/mod.rs`: number of G2 points required
for the trusted setup. -/
def NUM_G2_POINTS : Nat := 65

/-- Return codes of the C library, from `generated.rs`. -/
inductive C_KZG_RET where
  | C_KZG_OK
  | C_KZG_BADARGS
  | C_KZG_ERROR
  | C_KZG_MALLOC
deriving DecidableEq, Repr

/-- The Rust `Error` enum from `bindings/rust/src/bindings/mod.rs`
(the legacy `lib.rs` declares the identical enum). -/
inductive Error where
  | InvalidBytesLength (msg : String)
  | InvalidKzgProof (msg : String)
  | InvalidKzgCommitment (msg : String)
  | InvalidTrustedSetup (msg : String)
  | MismatchLength (msg : String)
  | CError (ret : C_KZG_RET)
deriving DecidableEq, Repr

/-! ## Hex encoding and decoding

Model of the `hex` crate as used by `from_hex` in `bindings/mod.rs` and by
the serde helpers: `hex::encode` produces lowercase digit pairs,
`hex::decode` accepts upper- or lowercase digits and fails on an odd-length
input or a non-hexadecimal character.  Strings are `List Char`, byte
buffers are `List Nat`. -/

namespace Hex

/-- Value of a single hexadecimal digit, `none` for a non-digit.  The
ranges are by code point: `0`-`9` is 48-57, `a`-`f` is 97-102, `A`-`F`
is 65-70. -/
def hexVal (c : Char) : Option Nat :=
  if 48 ≤ c.toNat ∧ c.toNat ≤ 57 then some (c.toNat - 48)
  else if 97 ≤ c.toNat ∧ c.toNat ≤ 102 then some (c.toNat - 87)
  else if 65 ≤ c.toNat ∧ c.toNat ≤ 70 then some (c.toNat - 55)
  else none

/-- `hex::decode`: pairs of digits to bytes; odd length or an invalid
digit is a failure. -/
def decode : List Char → Option (List Nat)
  | [] => some []
  | [_] => none
  | c1 :: c2 :: rest =>
    match hexVal c1, hexVal c2, decode rest with
    | some hi, some lo, some bs => some ((16 * hi + lo) :: bs)
    | _, _, _ => none

/-- Lowercase digit for a nibble value, by code point: 48-57 for the
decimal digits, 97-102 for `a`-`f`. -/
def encodeNibble (n : Nat) : Char :=
  Char.ofNat (if n ≤ 9 then 48 + n else 87 + n)

/-- `hex::encode`: every byte becomes two lowercase digits. -/
def encode : List Nat → List Char
  | [] => []
  | b :: bs => encodeNibble (b / 16) :: encodeNibble (b % 16) :: encode bs

end Hex

/-! ## Value types and constructors of `bindings/rust/src/bindings/mod.rs`

Byte buffers are `List Nat`; the fixed-size array types of the Rust code
become structures holding such a buffer, and their `from_bytes`
constructors perform exactly the length checks of the source. -/

namespace Bindings

structure Blob where
  bytes : List Nat
deriving DecidableEq, Repr

structure Bytes32 where
  bytes : List Nat
deriving DecidableEq, Repr

structure Bytes48 where
  bytes : List Nat
deriving DecidableEq, Repr

structure KZGProof where
  bytes : List Nat
deriving DecidableEq, Repr

structure KZGCommitment where
  bytes : List Nat
deriving DecidableEq, Repr

/-- `Blob::from_bytes`. -/
def Blob.from_bytes (bytes : List Nat) : Except Error Blob :=
  if bytes.length ≠ BYTES_PER_BLOB then
    .error (.InvalidBytesLength
      ("Invalid byte length. Expected " ++ toString BYTES_PER_BLOB ++ " got "
        ++ toString bytes.length))
  else
    .ok { bytes := bytes }

/-- `Bytes32::from_bytes`. -/
def Bytes32.from_bytes (bytes : List Nat) : Except Error Bytes32 :=
  if bytes.length ≠ 32 then
    .error (.InvalidBytesLength
      ("Invalid byte length. Expected 32 got " ++ toString bytes.length))
  else
    .ok { bytes := bytes }

/-- `Bytes48::from_bytes`. -/
def Bytes48.from_bytes (bytes : List Nat) : Except Error Bytes48 :=
  if bytes.length ≠ 48 then
    .error (.InvalidBytesLength
      ("Invalid byte length. Expected 48 got " ++ toString bytes.length))
  else
    .ok { bytes := bytes }

/-- `KZGProof::from_bytes`. -/
def KZGProof.from_bytes (bytes : List Nat) : Except Error KZGProof :=
  if bytes.length ≠ BYTES_PER_PROOF then
    .error (.InvalidKzgProof
      ("Invalid byte length. Expected " ++ toString BYTES_PER_PROOF ++ " got "
        ++ toString bytes.length))
  else
    .ok { bytes := bytes }

/-- `KZGCommitment::from_bytes`. -/
def KZGCommitment.from_bytes (bytes : List Nat) : Except Error KZGCommitment :=
  if bytes.length ≠ BYTES_PER_COMMITMENT then
    .error (.InvalidKzgCommitment
      ("Invalid byte length. Expected " ++ toString BYTES_PER_PROOF ++ " got "
        ++ toString bytes.length))
  else
    .ok { bytes := bytes }

/-- `Blob::from_hex`: `Self::from_bytes(&hex::decode(&hex_str[2..]).unwrap())`.
The value `none` models a panic: either the byte slice `hex_str[2..]` is out
of bounds (input shorter than two bytes) or the `unwrap` of a failed
`hex::decode`. -/
def Blob.from_hex (hex_str : List Char) : Option (Except Error Blob) :=
  if hex_str.length < 2 then none
  else
    match Hex.decode (hex_str.drop 2) with
    | none => none
    | some bytes => some (Blob.from_bytes bytes)

/-- `Bytes32::from_hex`, same shape as `Blob::from_hex`. -/
def Bytes32.from_hex (hex_str : List Char) : Option (Except Error Bytes32) :=
  if hex_str.length < 2 then none
  else
    match Hex.decode (hex_str.drop 2) with
    | none => none
    | some bytes => some (Bytes32.from_bytes bytes)

/-- `Bytes48::from_hex`, same shape as `Blob::from_hex`. -/
def Bytes48.from_hex (hex_str : List Char) : Option (Except Error Bytes48) :=
  if hex_str.length < 2 then none
  else
    match Hex.decode (hex_str.drop 2) with
    | none => none
    | some bytes => some (Bytes48.from_bytes bytes)

end Bindings

/-! ## The C engine, modelled from the specification

The C library behind the FFI declarations of `generated.rs` is not among
the sources; the design document (sections 3, 4.3, 4.4, 4.5) specifies it,
and this namespace models it.  Group elements are represented by their
discrete logarithms: a G1 point `[a]G1` is the field element `a`, the
pairing equality `e(C - [y]G1, G2) = e(P, [s]G2 - [z]G2)` becomes the field
equation `c - y = p * (s - z)`.  A trusted setup is therefore a secret
scalar together with the evaluation domain. -/

namespace Core

variable {F : Type} [Field F] [DecidableEq F]

/-- Modelled from the spec: the trusted setup holds the domain size, the
roots-of-unity domain (`omega i` is the `i`-th domain point, in the
bit-reversal-permuted order matching the Lagrange basis points) and the
ceremony secret whose powers underlie the G1/G2 setup points. -/
structure Setup (F : Type) where
  secret : F
  n : Nat
  omega : Nat → F

/-- Evaluation at `x` of the `i`-th Lagrange basis polynomial for the
nodes `v 0, …, v (n-1)`. -/
def lagBasisAt (v : Nat → F) (n i : Nat) (x : F) : F :=
  ∏ j ∈ (Finset.range n).erase i, (x - v j) / (v i - v j)

/-- Modelled from the spec (4.3): `blob_to_commitment` computes the MSM of
the evaluation-form values against the Lagrange-form basis points, i.e.
the interpolating polynomial evaluated at the secret. -/
def commitEvalForm (st : Setup F) (b : Nat → F) : F :=
  ∑ i ∈ Finset.range st.n, b i * lagBasisAt st.omega st.n i st.secret

/-- Modelled from the spec (4.3): barycentric evaluation of the
evaluation-form polynomial at `z` — the value `p(z)` of the interpolating
polynomial (exact also when `z` is a domain point). -/
def evalPolyAt (st : Setup F) (b : Nat → F) (z : F) : F :=
  ∑ i ∈ Finset.range st.n, b i * lagBasisAt st.omega st.n i z

/-- One summand of the L'Hôpital-derived formula for the quotient
value at a domain point: the value at node `m` of the Lagrange basis
polynomial of node `j` divided exactly by `X - ω_m`, i.e. the
derivative of that basis polynomial at `ω_m`. -/
def lhopitalTerm (v : Nat → F) (n j m : Nat) : F :=
  (v j - v m)⁻¹ * ∏ l ∈ ((Finset.range n).erase j).erase m, (v m - v l) / (v j - v l)

/-- Modelled from the spec (4.3): the quotient polynomial in evaluation
form: the per-point formula `q(ω_i) = (p(ω_i) - y) / (ω_i - z)` for
`ω_i ≠ z`, and the L'Hôpital-derived formula at `ω_i = z` — the other
points' contributions weighted by the derivatives of their basis
polynomials, which is exactly the value of `(p - y) / (X - z)` at the
coincident point. -/
def quotientEval (st : Setup F) (b : Nat → F) (z y : F) (i : Nat) : F :=
  if st.omega i = z then
    ∑ j ∈ (Finset.range st.n).erase i, (b j - y) * lhopitalTerm st.omega st.n j i
  else (b i - y) / (st.omega i - z)

/-- Modelled from the spec (4.3): `compute_proof` commits to the quotient
polynomial via the same Lagrange-basis MSM. -/
def computeProofVal (st : Setup F) (b : Nat → F) (z : F) : F :=
  ∑ i ∈ Finset.range st.n,
    quotientEval st b z (evalPolyAt st b z) i * lagBasisAt st.omega st.n i st.secret

/-- Modelled from the spec (4.3): `verify_proof` checks the pairing
equation `e(C − [y]G1, G2) = e(P, [s]G2 − [z]G2)`, in discrete-log form
`c - y = proof * (s - z)`. -/
def verifyPairing (st : Setup F) (c z y pf : F) : Bool :=
  c - y = pf * (st.secret - z)

/-! ### Byte-level blob validation (spec section 3)

A blob is `n` consecutive 32-byte chunks, each a big-endian integer that
must be strictly below the field modulus. -/

/-- Big-endian value of a byte string. -/
def beValue (bytes : List Nat) : Nat :=
  bytes.foldl (fun a b => 256 * a + b) 0

/-- Value of the `i`-th 32-byte chunk of a blob. -/
def chunkValue (bytes : List Nat) (i : Nat) : Nat :=
  beValue ((bytes.drop (32 * i)).take 32)

/-- Modelled from the spec: a blob is valid when it has exactly `32 * n`
bytes and every chunk is canonical (below the modulus `order`). -/
def blobValid (n order : Nat) (bytes : List Nat) : Bool :=
  bytes.length = 32 * n ∧ ∀ i < n, chunkValue bytes i < order

/-- Field elements of a blob, chunkwise. -/
def blobElems (bytes : List Nat) (i : Nat) : F :=
  (chunkValue bytes i : F)

/-! ### The C entry points used by the single-blob workflow.

Each returns the C return code together with the produced value (the out
parameter); on a non-`OK` return the out value is unspecified, modelled
as a default.  `order` is the scalar-field modulus; `hash` is the
Fiat–Shamir challenge derivation from the blob bytes and the commitment
(spec 4.3: a domain-separated hash of the blob bytes and the commitment
bytes). -/

/-- Modelled from the spec (4.3): `blob_to_kzg_commitment`. -/
def blob_to_kzg_commitment_c (st : Setup F) (order : Nat) (bytes : List Nat) :
    C_KZG_RET × F :=
  if blobValid st.n order bytes then
    (.C_KZG_OK, commitEvalForm st (blobElems bytes))
  else
    (.C_KZG_BADARGS, 0)

/-- Modelled from the spec (4.3): `compute_blob_kzg_proof` derives the
challenge from blob and commitment and delegates to `compute_proof`. -/
def compute_blob_kzg_proof_c (st : Setup F) (order : Nat)
    (hash : List Nat → F → F) (bytes : List Nat) (commitment : F) :
    C_KZG_RET × F :=
  if blobValid st.n order bytes then
    (.C_KZG_OK, computeProofVal st (blobElems bytes) (hash bytes commitment))
  else
    (.C_KZG_BADARGS, 0)

/-- Modelled from the spec (4.3): `verify_kzg_proof` on decoded,
well-formed inputs returns `OK` with the boolean pairing verdict. -/
def verify_kzg_proof_c (st : Setup F) (c z y pf : F) : C_KZG_RET × Bool :=
  (.C_KZG_OK, verifyPairing st c z y pf)

/-- Modelled from the spec (4.3): `verify_blob_kzg_proof` recomputes `z`
and `y` from the blob and delegates to the pairing check. -/
def verify_blob_kzg_proof_c (st : Setup F) (order : Nat)
    (hash : List Nat → F → F) (bytes : List Nat) (commitment pf : F) :
    C_KZG_RET × Bool :=
  if blobValid st.n order bytes then
    let z := hash bytes commitment
    (.C_KZG_OK, verifyPairing st commitment z (evalPolyAt st (blobElems bytes) z) pf)
  else
    (.C_KZG_BADARGS, false)

end Core

/-! ## Wrapper functions of `bindings/rust/src/bindings/mod.rs`

Each Rust wrapper calls an FFI entry point and maps its `C_KZG_RET` (plus
out parameter) to `Result`.  The embedding takes the C call result as an
explicit argument `res`. -/

namespace Bindings

/-- `KZGCommitment::blob_to_kzg_commitment`: `Ok` on `C_KZG_OK`, else
`Err(Error::CError(res))`.  `G` is the commitment value type. -/
def blob_to_kzg_commitment {G : Type} (res : C_KZG_RET × G) : Except Error G :=
  if res.1 = .C_KZG_OK then .ok res.2 else .error (.CError res.1)

/-- `KZGProof::compute_blob_kzg_proof`, same result mapping. -/
def compute_blob_kzg_proof {G : Type} (res : C_KZG_RET × G) : Except Error G :=
  if res.1 = .C_KZG_OK then .ok res.2 else .error (.CError res.1)

/-- `KZGProof::verify_kzg_proof`: `Ok(verified)` on `C_KZG_OK`, else
`Err(Error::CError(res))`. -/
def verify_kzg_proof (res : C_KZG_RET × Bool) : Except Error Bool :=
  if res.1 = .C_KZG_OK then .ok res.2 else .error (.CError res.1)

/-- `KZGProof::verify_blob_kzg_proof`, same result mapping. -/
def verify_blob_kzg_proof (res : C_KZG_RET × Bool) : Except Error Bool :=
  if res.1 = .C_KZG_OK then .ok res.2 else .error (.CError res.1)

/-- `KZGProof::verify_blob_kzg_proof_batch`: two length checks, then the
C call (whose result is the argument `res`). -/
def verify_blob_kzg_proof_batch (blobs : List Blob)
    (commitments_bytes proofs_bytes : List Bytes48) (res : C_KZG_RET × Bool) :
    Except Error Bool :=
  if blobs.length ≠ commitments_bytes.length then
    .error (.MismatchLength
      ("There are " ++ toString blobs.length ++ " blobs and "
        ++ toString commitments_bytes.length ++ " commitments"))
  else if blobs.length ≠ proofs_bytes.length then
    .error (.MismatchLength
      ("There are " ++ toString blobs.length ++ " blobs and "
        ++ toString proofs_bytes.length ++ " proofs"))
  else if res.1 = .C_KZG_OK then .ok res.2
  else .error (.CError res.1)

/-- `KZGSettings::load_trusted_setup`: validates the G1 and G2 point
counts, then calls the C loader (result `res`, success value `S`). -/
def load_trusted_setup {S : Type} (g1_bytes g2_bytes : List (List Nat))
    (res : C_KZG_RET × S) : Except Error S :=
  if g1_bytes.length ≠ FIELD_ELEMENTS_PER_BLOB then
    .error (.InvalidTrustedSetup
      ("Invalid number of g1 points in trusted setup. Expected "
        ++ toString FIELD_ELEMENTS_PER_BLOB ++ " got " ++ toString g1_bytes.length))
  else if g2_bytes.length ≠ NUM_G2_POINTS then
    .error (.InvalidTrustedSetup
      ("Invalid number of g2 points in trusted setup. Expected "
        ++ toString NUM_G2_POINTS ++ " got " ++ toString g2_bytes.length))
  else if res.1 = .C_KZG_OK then .ok res.2
  else .error (.InvalidTrustedSetup ("Invalid trusted setup: " ++ reprStr res.1))

end Bindings

/-! ## Wrapper functions of the legacy `bindings/rust/src/lib.rs`

This older revision of the crate maps the bare `C_KZG_RET` of the C call
to `Result<(), Error>`: its verification functions have success type `()`
and carry no boolean verdict. -/

namespace LibRs

/-- `KZGProof::verify_kzg_proof` of `lib.rs`: `Ok(())` on `C_KZG_OK`,
else `Err(Error::CError(res))`. -/
def verify_kzg_proof (res : C_KZG_RET) : Except Error Unit :=
  if res = .C_KZG_OK then .ok () else .error (.CError res)

/-- `KZGProof::verify_blob_kzg_proof` of `lib.rs`, same mapping. -/
def verify_blob_kzg_proof (res : C_KZG_RET) : Except Error Unit :=
  if res = .C_KZG_OK then .ok () else .error (.CError res)

end LibRs

/-- Common observation type for the two crate revisions' verification
results: `Result<bool, Error>` values are `okBool b` or `err e`,
`Result<(), Error>` values are `okUnit` or `err e`. -/
inductive VerifyOutcome where
  | okBool (b : Bool)
  | okUnit
  | err (e : Error)
deriving DecidableEq, Repr

/-- The outcome of `Bindings.verify_kzg_proof` as a `VerifyOutcome`. -/
def Bindings.verify_kzg_proof_outcome (res : C_KZG_RET × Bool) : VerifyOutcome :=
  match Bindings.verify_kzg_proof res with
  | .ok b => .okBool b
  | .error e => .err e

/-- The outcome of `LibRs.verify_kzg_proof` as a `VerifyOutcome`. -/
def LibRs.verify_kzg_proof_outcome (res : C_KZG_RET) : VerifyOutcome :=
  match LibRs.verify_kzg_proof res with
  | .ok _ => .okUnit
  | .error e => .err e

/-! ## Serde helpers, from `bindings/rust/src/bindings/serde_helpers.rs`

Serialization renders the byte buffer as a `0x`-prefixed lowercase hex
string; deserialization strips an optional `0x` prefix, hex-decodes and
re-validates through `from_bytes`.  A serde error is modelled as `none`. -/

namespace SerdeHelpers

/-- `serialize_bytes`: `format!("0x{}", hex::encode(x))`. -/
def serialize_bytes (x : List Nat) : List Char :=
  '0' :: 'x' :: Hex.encode x

/-- `value.strip_prefix("0x")` with the fallback to the whole string used
by every `Deserialize` impl in the file. -/
def stripPrefix0x (s : List Char) : List Char :=
  match s with
  | c1 :: c2 :: rest => if c1 = '0' ∧ c2 = 'x' then rest else s
  | _ => s

/-- Common body of the `Deserialize` impls: optional prefix strip, then
`hex::decode`. -/
def decodeHexField (s : List Char) : Option (List Nat) :=
  Hex.decode (stripPrefix0x s)

/-- `impl Serialize for Blob`. -/
def blobSerialize (b : Bindings.Blob) : List Char :=
  serialize_bytes b.bytes

/-- `impl Deserialize for Blob`. -/
def blobDeserialize (s : List Char) : Option Bindings.Blob :=
  match decodeHexField s with
  | none => none
  | some bytes => (Bindings.Blob.from_bytes bytes).toOption

/-- `impl Serialize for Bytes32`. -/
def bytes32Serialize (v : Bindings.Bytes32) : List Char :=
  serialize_bytes v.bytes

/-- `impl Deserialize for Bytes32`. -/
def bytes32Deserialize (s : List Char) : Option Bindings.Bytes32 :=
  match decodeHexField s with
  | none => none
  | some bytes => (Bindings.Bytes32.from_bytes bytes).toOption

/-- `impl Serialize for KzgCommitment` (serializes `self.0.bytes`). -/
def commitmentSerialize (v : Bindings.KZGCommitment) : List Char :=
  serialize_bytes v.bytes

/-- `impl Deserialize for KzgCommitment`. -/
def commitmentDeserialize (s : List Char) : Option Bindings.KZGCommitment :=
  match decodeHexField s with
  | none => none
  | some bytes => (Bindings.KZGCommitment.from_bytes bytes).toOption

/-- `impl Serialize for KzgProof` (serializes `self.0.bytes`). -/
def proofSerialize (v : Bindings.KZGProof) : List Char :=
  serialize_bytes v.bytes

/-- `impl Deserialize for KzgProof`. -/
def proofDeserialize (s : List Char) : Option Bindings.KZGProof :=
  match decodeHexField s with
  | none => none
  | some bytes => (Bindings.KZGProof.from_bytes bytes).toOption

/-- Whether a character is a lowercase hexadecimal digit, by code
point: a decimal digit (48-57) or one of `a`-`f` (97-102). -/
def isLowercaseHexDigit (c : Char) : Bool :=
  (48 ≤ c.toNat ∧ c.toNat ≤ 57) ∨ (97 ≤ c.toNat ∧ c.toNat ≤ 102)

end SerdeHelpers

/-! ## Default settings cache, from
`bindings/rust/src/ethereum_kzg_settings/mod.rs`

`ethereum_kzg_settings_inner` matches the precompute level against the
sixteen per-level caches (`0` through `15`); any other value hits the
`panic!` arm.  Within range, the cache is populated by
`load_trusted_setup` on the embedded mainnet points, whose failure would
hit the `.expect` panic.  Panics are modelled as `none`; the loader is a
parameter `load`. -/

namespace EthereumKzgSettings

/-- `ethereum_kzg_settings_inner`. -/
def ethereum_kzg_settings_inner {S : Type} (load : Nat → Except Error S)
    (precompute : Nat) : Option S :=
  if precompute ≤ 15 then
    match load precompute with
    | .ok s => some s
    | .error _ => none
  else none

/-- `ethereum_kzg_settings`, delegating to the inner function. -/
def ethereum_kzg_settings {S : Type} (load : Nat → Except Error S)
    (precompute : Nat) : Option S :=
  ethereum_kzg_settings_inner load precompute

/-- `ethereum_kzg_settings_arc`, delegating to the inner function. -/
def ethereum_kzg_settings_arc {S : Type} (load : Nat → Except Error S)
    (precompute : Nat) : Option S :=
  ethereum_kzg_settings_inner load precompute

end EthereumKzgSettings

/-! ## Cell / erasure-coding engine, modelled from the specification

Section 4.5 of the design: `compute_cells_and_proofs` evaluates the
blob's polynomial on the doubled extended domain and partitions the
evaluations into fixed-size cells with one proof per cell;
`recover_cells_and_proofs` checks its arguments (threshold, duplicates,
range, cell sizes), reconstructs the full extended evaluation vector by
polynomial interpolation through the provided evaluations, and recomputes
every cell and every proof from the recovered polynomial. -/

namespace Core

variable {F : Type} [Field F] [DecidableEq F]

/-- Modelled from the spec: extension of a trusted setup for the cell
engine: the extended evaluation domain, the cell geometry, and the FK20
per-cell proof computation (a deterministic function of the full
extended evaluation vector, applied identically when computing and when
recomputing after recovery). -/
structure CellSetup (F : Type) where
  base : Setup F
  omegaExt : Nat → F
  fieldsPerCell : Nat
  numCells : Nat
  proofOf : List F → Nat → F

/-- Evaluation of the blob's polynomial at extended-domain node `t`. -/
def extEval (cs : CellSetup F) (b : Nat → F) (t : Nat) : F :=
  evalPolyAt cs.base b (cs.omegaExt t)

/-- The full extended evaluation vector. -/
def extBlob (cs : CellSetup F) (b : Nat → F) : List F :=
  (List.range (cs.numCells * cs.fieldsPerCell)).map (extEval cs b)

/-- The extended evaluations partitioned into cells. -/
def cellsOfPoly (cs : CellSetup F) (b : Nat → F) : List (List F) :=
  (List.range cs.numCells).map fun j =>
    (List.range cs.fieldsPerCell).map fun k => extEval cs b (j * cs.fieldsPerCell + k)

/-- The per-cell proofs of the blob's polynomial. -/
def proofsOfPoly (cs : CellSetup F) (b : Nat → F) : List F :=
  (List.range cs.numCells).map (cs.proofOf (extBlob cs b))

/-- Modelled from the spec (4.5): `compute_cells_and_kzg_proofs`. -/
def compute_cells_and_kzg_proofs_c (cs : CellSetup F) (order : Nat)
    (bytes : List Nat) : C_KZG_RET × (List (List F) × List F) :=
  if blobValid cs.base.n order bytes then
    (.C_KZG_OK, (cellsOfPoly cs (blobElems bytes), proofsOfPoly cs (blobElems bytes)))
  else
    (.C_KZG_BADARGS, ([], []))

/-- Interpolation through an explicit list of (node, value) points,
evaluated at `x`. -/
def lagPtsEval (pts : List (F × F)) (x : F) : F :=
  ∑ i ∈ Finset.range pts.length,
    (pts.getD i (0, 0)).2 * lagBasisAt (fun j => (pts.getD j (0, 0)).1) pts.length i x

/-- The flattened (node, value) points supplied to recovery: for the
`t`-th provided field element, the owning provided cell is `t / fieldsPerCell`
and the position inside it is `t % fieldsPerCell`. -/
def recoveryPoints (cs : CellSetup F) (cell_indices : List Nat)
    (cells : List (List F)) : List (F × F) :=
  (List.range (cell_indices.length * cs.fieldsPerCell)).map fun t =>
    (cs.omegaExt ((cell_indices.getD (t / cs.fieldsPerCell) 0) * cs.fieldsPerCell
        + t % cs.fieldsPerCell),
      (cells.getD (t / cs.fieldsPerCell) []).getD (t % cs.fieldsPerCell) 0)

/-- Modelled from the spec (4.5): `recover_cells_and_kzg_proofs`.
Errors (`C_KZG_BADARGS`): mismatched argument lengths, fewer than
`CELLS_PER_EXT_BLOB / 2` cells, duplicate indices, out-of-range indices,
or a provided cell of the wrong length.  Otherwise the full extended
evaluation vector is reconstructed by interpolation through the provided
evaluations, and all cells and proofs are recomputed from it. -/
def recover_cells_and_kzg_proofs_c (cs : CellSetup F) (cell_indices : List Nat)
    (cells : List (List F)) : Except C_KZG_RET (List (List F) × List F) :=
  if cell_indices.length ≠ cells.length then .error .C_KZG_BADARGS
  else if cell_indices.length < cs.numCells / 2 then .error .C_KZG_BADARGS
  else if ¬ cell_indices.Nodup then .error .C_KZG_BADARGS
  else if ¬ (cell_indices.all (· < cs.numCells)) then .error .C_KZG_BADARGS
  else if ¬ (cells.all fun c => c.length = cs.fieldsPerCell) then .error .C_KZG_BADARGS
  else
    let pts := recoveryPoints cs cell_indices cells
    let recEval : Nat → F := fun t => lagPtsEval pts (cs.omegaExt t)
    let recEvals := (List.range (cs.numCells * cs.fieldsPerCell)).map recEval
    .ok ((List.range cs.numCells).map fun j =>
          (List.range cs.fieldsPerCell).map fun k => recEval (j * cs.fieldsPerCell + k),
        (List.range cs.numCells).map (cs.proofOf recEvals))

end Core

/-! ## The single-blob round-trip pipeline of claim C1:
commitment, then blob proof, then verification, through the Rust
wrappers of `bindings/mod.rs` over the modelled C engine. -/

/-- `blob_to_kzg_commitment`, then `compute_blob_kzg_proof`, then
`verify_blob_kzg_proof`, with errors propagated as in Rust `?`. -/
def c1Pipeline {F : Type} [Field F] [DecidableEq F] (st : Core.Setup F)
    (order : Nat) (hash : List Nat → F → F) (bytes : List Nat) :
    Except Error Bool := do
  let c ← Bindings.blob_to_kzg_commitment (Core.blob_to_kzg_commitment_c st order bytes)
  let pf ← Bindings.compute_blob_kzg_proof
    (Core.compute_blob_kzg_proof_c st order hash bytes c)
  Bindings.verify_blob_kzg_proof
    (Core.verify_blob_kzg_proof_c st order hash bytes c pf)

/-! ## Concrete instances used by the witnesses: the scalar field is
`ZMod 17`, the base domain the fourth roots of unity, the extended
domain the eighth roots of unity (matching the small test profile
`FIELD_ELEMENTS_PER_BLOB = 4`). -/

instance : Fact (Nat.Prime 17) := ⟨by norm_num⟩

/-- Witness setup: secret `5`, domain size `4`, domain `1, 4, 16, 13`
(the fourth roots of unity modulo 17). -/
def wSetup : Core.Setup (ZMod 17) :=
  { secret := 5, n := 4, omega := fun i => [1, 4, 16, 13].getD i 1 }

/-- Witness cell setup over `wSetup`: eighth roots of unity
`1, 2, 4, 8, 16, 15, 13, 9`, two field elements per cell, four cells. -/
def wCellSetup : Core.CellSetup (ZMod 17) :=
  { base := wSetup
    omegaExt := fun t => [1, 2, 4, 8, 16, 15, 13, 9].getD t 1
    fieldsPerCell := 2
    numCells := 4
    proofOf := fun evals j => evals.getD j 0 }

/-- Witness blob bytes: four 32-byte chunks with big-endian values
`1, 2, 3, 4`. -/
def wBytes : List Nat :=
  (List.range 4).flatMap fun i => List.replicate 31 0 ++ [i + 1]

/-! # Lemmas and theorems -/

open Polynomial in
/-- The computable Lagrange basis value agrees with Mathlib's basis
polynomial. -/
theorem Core.eval_lagrange_basis {F : Type} [Field F] [DecidableEq F]
    (v : Nat → F) (n i : Nat) (x : F) :
    (Lagrange.basis (Finset.range n) v i).eval x = Core.lagBasisAt v n i x := by
  unfold Core.lagBasisAt
  rw [Lagrange.basis, Polynomial.eval_prod]
  refine Finset.prod_congr rfl fun j _ => ?_
  rw [Lagrange.basisDivisor]
  simp [div_eq_mul_inv, mul_comm]

open Polynomial in
/-- Evaluating a Lagrange interpolation as the computable weighted sum. -/
theorem Core.eval_interpolate_eq_sum {F : Type} [Field F] [DecidableEq F]
    (v : Nat → F) (n : Nat) (r : Nat → F) (x : F) :
    (Lagrange.interpolate (Finset.range n) v r).eval x
      = ∑ i ∈ Finset.range n, r i * Core.lagBasisAt v n i x := by
  rw [Lagrange.interpolate_apply, Polynomial.eval_finset_sum]
  refine Finset.sum_congr rfl fun i _ => ?_
  rw [Polynomial.eval_mul, Polynomial.eval_C, Core.eval_lagrange_basis]

open Polynomial in
/-- Interpolation identity: for distinct nodes `v 0, …, v (n-1)` and a
polynomial `f` of degree `< n`, the weighted sum of the values of `f` at
the nodes with computable Lagrange basis weights evaluates `f`. -/
theorem Core.sum_eval_mul_lagBasisAt {F : Type} [Field F] [DecidableEq F]
    (v : Nat → F) (n : Nat) (hinj : Set.InjOn v (Finset.range n))
    (f : F[X]) (hdeg : f.degree < n) (x : F) :
    ∑ i ∈ Finset.range n, f.eval (v i) * Core.lagBasisAt v n i x = f.eval x := by
  rw [← Core.eval_interpolate_eq_sum]
  congr 1
  exact (Lagrange.eq_interpolate hinj (by simpa using hdeg)).symm

open Polynomial in
/-- The exact quotient: `(X - C z) * ((p - C (p.eval z)) /ₘ (X - C z))`
recovers `p - C (p.eval z)`. -/
theorem Core.quotient_mul_eq {F : Type} [Field F] (p : F[X]) (z : F) :
    (X - C z) * ((p - C (p.eval z)) /ₘ (X - C z)) = p - C (p.eval z) := by
  have hmonic : (X - C z).Monic := monic_X_sub_C z
  have hdvd : (X - C z) ∣ p - C (p.eval z) := X_sub_C_dvd_sub_C_eval
  have hmod : (p - C (p.eval z)) %ₘ (X - C z) = 0 :=
    (modByMonic_eq_zero_iff_dvd hmonic).mpr hdvd
  have := modByMonic_add_div (p - C (p.eval z)) hmonic
  rw [hmod, zero_add] at this
  exact this

open Polynomial in
/-- Degree bound for the exact quotient. -/
theorem Core.quotient_degree_lt {F : Type} [Field F] (p : F[X]) (z : F)
    (n : Nat) (hn : 0 < n) (hdeg : p.degree < n) :
    ((p - C (p.eval z)) /ₘ (X - C z)).degree < n := by
  refine lt_of_le_of_lt (degree_divByMonic_le _ _) ?_
  refine lt_of_le_of_lt (degree_sub_le _ _) ?_
  refine max_lt hdeg (lt_of_le_of_lt (degree_C_le) ?_)
  exact_mod_cast hn

open Polynomial in
/-- The L'Hôpital-derived formula computes the exact quotient's value at
the coincident domain point: for the interpolant `p` of the values `b`
and `y = b m = p(ω_m)`, the value of `(p - C y) /ₘ (X - C ω_m)` at `ω_m`
is the `lhopitalTerm`-weighted sum of the other points' offsets. -/
theorem Core.quotient_eval_at_node {F : Type} [Field F] [DecidableEq F]
    (v : Nat → F) (n : Nat) (hinj : Set.InjOn v (Finset.range n))
    (b : Nat → F) (m : Nat) (hm : m < n) :
    ((Lagrange.interpolate (Finset.range n) v b - C (b m))
        /ₘ (X - C (v m))).eval (v m)
      = ∑ j ∈ (Finset.range n).erase m,
          (b j - b m) * Core.lhopitalTerm v n j m := by
  classical
  set p := Lagrange.interpolate (Finset.range n) v b with hp
  have hmmem : m ∈ Finset.range n := Finset.mem_range.mpr hm
  have hne : (Finset.range n).Nonempty := ⟨m, hmmem⟩
  have hpm : p.eval (v m) = b m :=
    Lagrange.eval_interpolate_at_node b hinj hmmem
  -- the offset interpolant as a sum over the punctured domain
  have hL1 : p - C (b m) = ∑ j ∈ (Finset.range n).erase m,
      C (b j - b m) * Lagrange.basis (Finset.range n) v j := by
    have h1 : p = ∑ j ∈ Finset.range n,
        C (b j) * Lagrange.basis (Finset.range n) v j :=
      Lagrange.interpolate_apply (Finset.range n) v b
    have h2 : (C (b m) : F[X]) = ∑ j ∈ Finset.range n,
        C (b m) * Lagrange.basis (Finset.range n) v j := by
      rw [← Finset.mul_sum, Lagrange.sum_basis hinj hne, mul_one]
    rw [h1, h2, ← Finset.sum_sub_distrib]
    have h3 : ∀ j ∈ Finset.range n,
        C (b j) * Lagrange.basis (Finset.range n) v j
          - C (b m) * Lagrange.basis (Finset.range n) v j
          = C (b j - b m) * Lagrange.basis (Finset.range n) v j := fun j _ => by
      rw [← sub_mul, ← C_sub]
    rw [Finset.sum_congr rfl h3]
    refine (Finset.sum_erase _ ?_).symm
    rw [sub_self, C_0, zero_mul]
  -- each punctured basis polynomial splits off its root at `v m`
  set Q : Nat → F[X] := fun j => C ((v j - v m)⁻¹)
    * ∏ l ∈ ((Finset.range n).erase j).erase m, Lagrange.basisDivisor (v j) (v l)
    with hQ
  have hL2 : ∀ j ∈ (Finset.range n).erase m,
      Lagrange.basis (Finset.range n) v j = (X - C (v m)) * Q j := by
    intro j hj
    obtain ⟨hjm, hjmem⟩ := Finset.mem_erase.mp hj
    have hmem : m ∈ (Finset.range n).erase j :=
      Finset.mem_erase.mpr ⟨fun h => hjm h.symm, hmmem⟩
    rw [Lagrange.basis, ← Finset.mul_prod_erase _ _ hmem, Lagrange.basisDivisor,
      hQ]
    ring
  -- hence the exact quotient is the corresponding sum of the `Q j`
  have hfac := Core.quotient_mul_eq p (v m)
  rw [hpm] at hfac
  have hL3 : (p - C (b m)) /ₘ (X - C (v m))
      = ∑ j ∈ (Finset.range n).erase m, C (b j - b m) * Q j := by
    refine mul_left_cancel₀ (X_sub_C_ne_zero (v m)) ?_
    calc (X - C (v m)) * ((p - C (b m)) /ₘ (X - C (v m)))
        = p - C (b m) := hfac
      _ = ∑ j ∈ (Finset.range n).erase m,
            C (b j - b m) * Lagrange.basis (Finset.range n) v j := hL1
      _ = ∑ j ∈ (Finset.range n).erase m,
            (X - C (v m)) * (C (b j - b m) * Q j) :=
          Finset.sum_congr rfl fun j hj => by rw [hL2 j hj]; ring
      _ = (X - C (v m)) * ∑ j ∈ (Finset.range n).erase m,
            C (b j - b m) * Q j := (Finset.mul_sum _ _ _).symm
  -- evaluate at the node
  rw [hL3, Polynomial.eval_finset_sum]
  refine Finset.sum_congr rfl fun j hj => ?_
  rw [Polynomial.eval_mul, Polynomial.eval_C]
  congr 1
  rw [hQ]
  unfold Core.lhopitalTerm
  rw [Polynomial.eval_mul, Polynomial.eval_C, Polynomial.eval_prod]
  congr 1
  refine Finset.prod_congr rfl fun l _ => ?_
  rw [Lagrange.basisDivisor]
  simp [div_eq_mul_inv, mul_comm]

open Polynomial in
/-- Modelled round trip of the single-blob workflow (spec 4.3): on a
setup with distinct domain points, the pairing check accepts the
commitment, claimed value and proof produced from any evaluation-form
polynomial, for every challenge `z` (including domain points, handled
by the L'Hôpital branch of the quotient). -/
theorem Core.roundTrip {F : Type} [Field F] [DecidableEq F]
    (st : Core.Setup F) (b : Nat → F) (z : F) (hn : 0 < st.n)
    (hinj : Set.InjOn st.omega (Finset.range st.n)) :
    Core.verifyPairing st (Core.commitEvalForm st b) z (Core.evalPolyAt st b z)
      (Core.computeProofVal st b z) = true := by
  classical
  set p := Lagrange.interpolate (Finset.range st.n) st.omega b with hp
  have hpdeg : p.degree < st.n := by
    simpa using Lagrange.degree_interpolate_lt b hinj
  have hnode : ∀ i < st.n, p.eval (st.omega i) = b i := fun i hi =>
    Lagrange.eval_interpolate_at_node b hinj (Finset.mem_range.mpr hi)
  -- the two evaluation-form sums are evaluations of `p`
  have hevalAt : ∀ x : F, Core.evalPolyAt st b x = p.eval x := by
    intro x
    unfold Core.evalPolyAt
    rw [← Core.sum_eval_mul_lagBasisAt st.omega st.n hinj p hpdeg x]
    refine Finset.sum_congr rfl fun i hi => ?_
    rw [hnode i (Finset.mem_range.mp hi)]
  have hcommit : Core.commitEvalForm st b = p.eval st.secret := hevalAt st.secret
  -- the quotient in evaluation form is the evaluation of the exact quotient
  set y := p.eval z with hy
  set q := (p - C y) /ₘ (X - C z) with hq
  have hfac : (X - C z) * q = p - C y := Core.quotient_mul_eq p z
  have hqdeg : q.degree < st.n := Core.quotient_degree_lt p z st.n hn hpdeg
  have hquot : ∀ i < st.n, Core.quotientEval st b z (Core.evalPolyAt st b z) i
      = q.eval (st.omega i) := by
    intro i hi
    by_cases hom : st.omega i = z
    · -- the challenge coincides with a domain point: L'Hôpital branch
      have hyi : y = b i := by rw [hy, ← hom, hnode i hi]
      have hlhs := Core.quotient_eval_at_node st.omega st.n hinj b i hi
      rw [← hp] at hlhs
      unfold Core.quotientEval
      rw [if_pos hom, hevalAt z, ← hy, hyi, hq, hyi, ← hom]
      exact hlhs.symm
    · -- generic per-point formula
      have hne : st.omega i - z ≠ 0 := sub_ne_zero.mpr hom
      have hfi : (st.omega i - z) * q.eval (st.omega i) = b i - y := by
        have := congrArg (Polynomial.eval (st.omega i)) hfac
        simpa [hnode i hi] using this
      unfold Core.quotientEval
      rw [if_neg hom, hevalAt z, ← hy, ← hfi, mul_div_cancel_left₀ _ hne]
  have hproof : Core.computeProofVal st b z = q.eval st.secret := by
    unfold Core.computeProofVal
    rw [← Core.sum_eval_mul_lagBasisAt st.omega st.n hinj q hqdeg st.secret]
    refine Finset.sum_congr rfl fun i hi => ?_
    rw [hquot i (Finset.mem_range.mp hi)]
  -- the pairing equation
  have hmain : p.eval st.secret - y = q.eval st.secret * (st.secret - z) := by
    have := congrArg (Polynomial.eval st.secret) hfac
    simpa [mul_comm] using this.symm
  unfold Core.verifyPairing
  rw [hcommit, hevalAt z, ← hy, hproof]
  simpa using hmain

/-- C1: for every valid blob (all chunks canonical) and every loaded
setup (positive domain size with distinct domain points), computing the
commitment, then the blob proof, then verifying, returns `Ok(true)`,
for every Fiat–Shamir challenge function (the in-domain case is covered
by the quotient's L'Hôpital branch). -/
theorem C1_blob_roundtrip {F : Type} [Field F] [DecidableEq F]
    (st : Core.Setup F) (order : Nat) (hash : List Nat → F → F)
    (bytes : List Nat) (hn : 0 < st.n)
    (hinj : ∀ i < st.n, ∀ j < st.n, st.omega i = st.omega j → i = j)
    (hvalid : Core.blobValid st.n order bytes = true) :
    c1Pipeline st order hash bytes = .ok true := by
  have hinj' : Set.InjOn st.omega (Finset.range st.n) := by
    intro i hi j hj h
    exact hinj i (by simpa using hi) j (by simpa using hj) h
  set b : Nat → F := Core.blobElems bytes with hb
  set c : F := Core.commitEvalForm st b with hc
  set z : F := hash bytes c with hzdef
  have h4 : Core.verifyPairing st c z (Core.evalPolyAt st b z)
      (Core.computeProofVal st b z) = true :=
    Core.roundTrip st b z hn hinj'
  simp [c1Pipeline, Core.blob_to_kzg_commitment_c, Core.compute_blob_kzg_proof_c,
    Core.verify_blob_kzg_proof_c, hvalid, Bindings.blob_to_kzg_commitment,
    Bindings.compute_blob_kzg_proof, Bindings.verify_blob_kzg_proof,
    Bind.bind, Except.bind, ← hb, ← hc, ← hzdef, h4]

set_option maxRecDepth 10000 in
/-- Witness for C1: the concrete pipeline over `ZMod 17` with domain
size `4` and blob values `1, 2, 3, 4`, both with the off-domain
challenge `7` and with the in-domain challenge `4` (the domain point
`omega 1`, exercising the L'Hôpital branch). -/
theorem C1_witness :
    c1Pipeline wSetup 17 (fun _ _ => 7) wBytes = .ok true
    ∧ c1Pipeline wSetup 17 (fun _ _ => 4) wBytes = .ok true :=
  ⟨C1_blob_roundtrip wSetup 17 (fun _ _ => 7) wBytes (by decide) (by decide)
      (by decide),
    C1_blob_roundtrip wSetup 17 (fun _ _ => 4) wBytes (by decide) (by decide)
      (by decide)⟩

/-- C6: the build constants satisfy the data-model arithmetic:
`FIELD_ELEMENTS_PER_BLOB = 4096` is a power of two,
`BYTES_PER_BLOB = FIELD_ELEMENTS_PER_BLOB * 32 = 131072`,
`FIELD_ELEMENTS_PER_EXT_BLOB = 2 * FIELD_ELEMENTS_PER_BLOB = 8192`,
`FIELD_ELEMENTS_PER_CELL = 64`, `BYTES_PER_CELL = 64 * 32 = 2048` and
`CELLS_PER_EXT_BLOB = 8192 / 64 = 128`. -/
theorem C6_constants :
    FIELD_ELEMENTS_PER_BLOB = 4096 ∧ (∃ k, FIELD_ELEMENTS_PER_BLOB = 2 ^ k)
    ∧ BYTES_PER_BLOB = FIELD_ELEMENTS_PER_BLOB * 32 ∧ BYTES_PER_BLOB = 131072
    ∧ FIELD_ELEMENTS_PER_EXT_BLOB = 2 * FIELD_ELEMENTS_PER_BLOB
    ∧ FIELD_ELEMENTS_PER_CELL = 64
    ∧ BYTES_PER_CELL = FIELD_ELEMENTS_PER_CELL * 32 ∧ BYTES_PER_CELL = 2048
    ∧ CELLS_PER_EXT_BLOB = FIELD_ELEMENTS_PER_EXT_BLOB / FIELD_ELEMENTS_PER_CELL
    ∧ CELLS_PER_EXT_BLOB = 128 := by
  refine ⟨rfl, ⟨12, rfl⟩, ?_⟩
  norm_num [BYTES_PER_BLOB, FIELD_ELEMENTS_PER_BLOB, FIELD_ELEMENTS_PER_EXT_BLOB,
    FIELD_ELEMENTS_PER_CELL, BYTES_PER_CELL, CELLS_PER_EXT_BLOB]

/-- C7: `Blob::from_bytes` succeeds exactly on inputs of
`BYTES_PER_BLOB` bytes, returning a blob with exactly those bytes, and
returns `InvalidBytesLength` on every other length. -/
theorem C7_blob_from_bytes (bytes : List Nat) :
    (bytes.length = BYTES_PER_BLOB →
      Bindings.Blob.from_bytes bytes = .ok { bytes := bytes })
    ∧ (bytes.length ≠ BYTES_PER_BLOB →
      ∃ msg, Bindings.Blob.from_bytes bytes = .error (.InvalidBytesLength msg)) := by
  constructor
  · intro h
    simp [Bindings.Blob.from_bytes, h]
  · intro h
    exact ⟨_, by unfold Bindings.Blob.from_bytes; rw [if_pos h]⟩

/-- Witness for C7: a 131072-byte input is accepted unchanged, a
one-byte input is rejected. -/
theorem C7_witness :
    Bindings.Blob.from_bytes (List.replicate 131072 0)
      = .ok { bytes := List.replicate 131072 0 }
    ∧ ∃ msg, Bindings.Blob.from_bytes [0] = .error (.InvalidBytesLength msg) :=
  ⟨(C7_blob_from_bytes (List.replicate 131072 0)).1
      (by rw [List.length_replicate]; rfl),
    (C7_blob_from_bytes [0]).2 (by simp [BYTES_PER_BLOB])⟩

/-- C4: `verify_blob_kzg_proof_batch` on inputs of mismatched lengths
returns a `MismatchLength` error, never a boolean verdict, and the
result does not depend on the C call's result (the check precedes any
cryptographic computation). -/
theorem C4_batch_mismatch (blobs : List Bindings.Blob)
    (commitments proofs : List Bindings.Bytes48)
    (h : blobs.length ≠ commitments.length ∨ blobs.length ≠ proofs.length) :
    ∀ res res' : C_KZG_RET × Bool,
      (∃ msg, Bindings.verify_blob_kzg_proof_batch blobs commitments proofs res
        = .error (.MismatchLength msg))
      ∧ Bindings.verify_blob_kzg_proof_batch blobs commitments proofs res
        = Bindings.verify_blob_kzg_proof_batch blobs commitments proofs res' := by
  intro res res'
  unfold Bindings.verify_blob_kzg_proof_batch
  rcases h with h | h
  · exact ⟨⟨_, by rw [if_pos h]⟩, by rw [if_pos h, if_pos h]⟩
  · rcases eq_or_ne blobs.length commitments.length with hc | hc
    · have hnc : ¬blobs.length ≠ commitments.length := fun hne => hne hc
      exact ⟨⟨_, by rw [if_neg hnc, if_pos h]⟩,
        by rw [if_neg hnc, if_pos h, if_neg hnc, if_pos h]⟩
    · exact ⟨⟨_, by rw [if_pos hc]⟩, by rw [if_pos hc, if_pos hc]⟩

/-- Witness for C4: one blob against empty commitment and proof lists is
a `MismatchLength` error for any C result, identically. -/
theorem C4_witness :
    (∃ msg, Bindings.verify_blob_kzg_proof_batch [{ bytes := [] }] [] []
        (.C_KZG_OK, true) = .error (.MismatchLength msg))
    ∧ Bindings.verify_blob_kzg_proof_batch [{ bytes := [] }] [] [] (.C_KZG_OK, true)
      = Bindings.verify_blob_kzg_proof_batch [{ bytes := [] }] [] []
        (.C_KZG_BADARGS, false) :=
  C4_batch_mismatch [{ bytes := [] }] [] [] (.inl (by simp)) _ _

/-- C5: `load_trusted_setup` rejects point counts other than
`FIELD_ELEMENTS_PER_BLOB` G1 points and `NUM_G2_POINTS` G2 points with
an `InvalidTrustedSetup` error independent of the C loader's result
(the count check precedes the load), and with correct counts the result
is exactly the mapped C loader result. -/
theorem C5_load_trusted_setup {S : Type} (g1 g2 : List (List Nat)) :
    ((g1.length ≠ FIELD_ELEMENTS_PER_BLOB ∨ g2.length ≠ NUM_G2_POINTS) →
      ∀ res res' : C_KZG_RET × S,
        (∃ msg, Bindings.load_trusted_setup g1 g2 res
          = .error (.InvalidTrustedSetup msg))
        ∧ Bindings.load_trusted_setup g1 g2 res
          = Bindings.load_trusted_setup g1 g2 res')
    ∧ (g1.length = FIELD_ELEMENTS_PER_BLOB → g2.length = NUM_G2_POINTS →
      ∀ res : C_KZG_RET × S,
        (res.1 = .C_KZG_OK → Bindings.load_trusted_setup g1 g2 res = .ok res.2)
        ∧ (res.1 ≠ .C_KZG_OK →
          ∃ msg, Bindings.load_trusted_setup g1 g2 res
            = .error (.InvalidTrustedSetup msg))) := by
  constructor
  · intro h res res'
    unfold Bindings.load_trusted_setup
    rcases h with h | h
    · exact ⟨⟨_, by rw [if_pos h]⟩, by rw [if_pos h, if_pos h]⟩
    · rcases eq_or_ne g1.length FIELD_ELEMENTS_PER_BLOB with hc | hc
      · have hnc : ¬g1.length ≠ FIELD_ELEMENTS_PER_BLOB := fun hne => hne hc
        exact ⟨⟨_, by rw [if_neg hnc, if_pos h]⟩,
          by rw [if_neg hnc, if_pos h, if_neg hnc, if_pos h]⟩
      · exact ⟨⟨_, by rw [if_pos hc]⟩, by rw [if_pos hc, if_pos hc]⟩
  · intro h1 h2 res
    have hn1 : ¬g1.length ≠ FIELD_ELEMENTS_PER_BLOB := fun hne => hne h1
    have hn2 : ¬g2.length ≠ NUM_G2_POINTS := fun hne => hne h2
    constructor
    · intro hok
      unfold Bindings.load_trusted_setup
      rw [if_neg hn1, if_neg hn2, if_pos hok]
    · intro hbad
      exact ⟨_, by unfold Bindings.load_trusted_setup
                   rw [if_neg hn1, if_neg hn2, if_neg hbad]⟩

/-- Witness for C5: an empty G1 list is rejected independently of the
loader; correct counts map the loader's `OK` to `Ok`. -/
theorem C5_witness :
    ((∃ msg, Bindings.load_trusted_setup (S := Unit) [] [] (.C_KZG_OK, ())
        = .error (.InvalidTrustedSetup msg))
      ∧ Bindings.load_trusted_setup (S := Unit) [] [] (.C_KZG_OK, ())
        = Bindings.load_trusted_setup (S := Unit) [] [] (.C_KZG_MALLOC, ()))
    ∧ Bindings.load_trusted_setup (S := Unit) (List.replicate 4096 [])
        (List.replicate 65 []) (.C_KZG_OK, ()) = .ok () :=
  ⟨(C5_load_trusted_setup [] []).1 (.inl (by simp [FIELD_ELEMENTS_PER_BLOB])) _ _,
    ((C5_load_trusted_setup (List.replicate 4096 []) (List.replicate 65 [])).2
      (by rw [List.length_replicate]; rfl) (by rw [List.length_replicate]; rfl)
      (.C_KZG_OK, ())).1 rfl⟩

/-- C8: requesting the default Ethereum settings at a precompute level
above 15 is a hard error (the `panic!` arm, modelled `none`) for both
`ethereum_kzg_settings` and `ethereum_kzg_settings_arc`; every level in
`0..=15` produces a settings value, given that loading the embedded
mainnet setup succeeds. -/
theorem C8_precompute {S : Type} (load : Nat → Except Error S)
    (hload : ∀ p ≤ 15, ∃ s, load p = .ok s) :
    (∀ p, 15 < p →
      EthereumKzgSettings.ethereum_kzg_settings load p = none
      ∧ EthereumKzgSettings.ethereum_kzg_settings_arc load p = none)
    ∧ (∀ p ≤ 15, ∃ s,
      EthereumKzgSettings.ethereum_kzg_settings load p = some s
      ∧ EthereumKzgSettings.ethereum_kzg_settings_arc load p = some s) := by
  constructor
  · intro p hp
    have hnp : ¬p ≤ 15 := by omega
    constructor <;>
      simp [EthereumKzgSettings.ethereum_kzg_settings,
        EthereumKzgSettings.ethereum_kzg_settings_arc,
        EthereumKzgSettings.ethereum_kzg_settings_inner, hnp]
  · intro p hp
    obtain ⟨s, hs⟩ := hload p hp
    exact ⟨s, by
      simp [EthereumKzgSettings.ethereum_kzg_settings,
        EthereumKzgSettings.ethereum_kzg_settings_inner, hp, hs],
      by
      simp [EthereumKzgSettings.ethereum_kzg_settings_arc,
        EthereumKzgSettings.ethereum_kzg_settings_inner, hp, hs]⟩

/-- Witness for C8: with an always-succeeding loader, level 16 panics
and level 3 yields a value. -/
theorem C8_witness :
    (EthereumKzgSettings.ethereum_kzg_settings (S := Unit) (fun _ => .ok ()) 16
        = none
      ∧ EthereumKzgSettings.ethereum_kzg_settings_arc (S := Unit)
        (fun _ => .ok ()) 16 = none)
    ∧ ∃ s, EthereumKzgSettings.ethereum_kzg_settings (S := Unit)
        (fun _ => .ok ()) 3 = some s
      ∧ EthereumKzgSettings.ethereum_kzg_settings_arc (S := Unit)
        (fun _ => .ok ()) 3 = some s :=
  ⟨(C8_precompute (fun _ => .ok ()) (fun p _ => ⟨(), rfl⟩)).1 16 (by decide),
    (C8_precompute (fun _ => .ok ()) (fun p _ => ⟨(), rfl⟩)).2 3 (by decide)⟩

/-- C3 counterexample: the legacy `lib.rs` `verify_kzg_proof` named by
the claim has result type `Result<(), Error>`: at the concrete C
results `C_KZG_OK` and `C_KZG_BADARGS` its outcome is `Ok(())` resp. an
error, never the boolean verdict `Ok(false)` the claim asserts. -/
theorem C3_counterexample :
    LibRs.verify_kzg_proof_outcome .C_KZG_OK = .okUnit
    ∧ LibRs.verify_kzg_proof_outcome .C_KZG_OK ≠ .okBool false
    ∧ LibRs.verify_kzg_proof_outcome .C_KZG_BADARGS
      = .err (.CError .C_KZG_BADARGS)
    ∧ LibRs.verify_kzg_proof_outcome .C_KZG_BADARGS ≠ .okBool false := by
  refine ⟨rfl, ?_, rfl, ?_⟩ <;> decide

/-- C3 amended: the current binding's `verify_kzg_proof` and
`verify_blob_kzg_proof` (`bindings/mod.rs`) return `Ok(false)` on every
well-formed input whose proof merely fails the pairing check, and an
`Err` only when the C call reports an error; the legacy `lib.rs`
wrappers instead return `Result<(), Error>`, mapping `C_KZG_OK` to
`Ok(())` and every other C result to `Err(CError)`, with no boolean
verdict. -/
theorem C3_amended {F : Type} [Field F] [DecidableEq F] :
    (∀ (st : Core.Setup F) (c z y pf : F),
      Core.verifyPairing st c z y pf = false →
        Bindings.verify_kzg_proof (Core.verify_kzg_proof_c st c z y pf)
          = .ok false)
    ∧ (∀ (st : Core.Setup F) (order : Nat) (hash : List Nat → F → F)
        (bytes : List Nat) (c pf : F),
      Core.blobValid st.n order bytes = true →
      Core.verifyPairing st c (hash bytes c)
        (Core.evalPolyAt st (Core.blobElems bytes) (hash bytes c)) pf = false →
        Bindings.verify_blob_kzg_proof
          (Core.verify_blob_kzg_proof_c st order hash bytes c pf) = .ok false)
    ∧ (∀ res : C_KZG_RET,
      LibRs.verify_kzg_proof_outcome res ≠ .okBool false
      ∧ LibRs.verify_kzg_proof_outcome res ≠ .okBool true
      ∧ (res = .C_KZG_OK → LibRs.verify_kzg_proof res = .ok ()
          ∧ LibRs.verify_blob_kzg_proof res = .ok ())
      ∧ (res ≠ .C_KZG_OK →
          LibRs.verify_kzg_proof res = .error (.CError res)
          ∧ LibRs.verify_blob_kzg_proof res = .error (.CError res))) := by
  refine ⟨?_, ?_, ?_⟩
  · intro st c z y pf h
    simp [Bindings.verify_kzg_proof, Core.verify_kzg_proof_c, h]
  · intro st order hash bytes c pf hvalid h
    simp [Bindings.verify_blob_kzg_proof, Core.verify_blob_kzg_proof_c, hvalid, h]
  · intro res
    rcases res <;>
      simp [LibRs.verify_kzg_proof_outcome, LibRs.verify_kzg_proof,
        LibRs.verify_blob_kzg_proof]

/-- Witness for C3 amended: over `ZMod 17`, the tuple
`(c, z, y, pf) = (1, 2, 3, 4)` fails the pairing check and both current
verifiers return `Ok(false)`; the legacy wrapper maps `C_KZG_OK` to
`Ok(())`. -/
theorem C3_witness :
    Bindings.verify_kzg_proof (Core.verify_kzg_proof_c wSetup 1 2 3 4)
      = .ok false
    ∧ LibRs.verify_kzg_proof_outcome .C_KZG_MALLOC ≠ .okBool false :=
  ⟨(C3_amended (F := ZMod 17)).1 wSetup 1 2 3 4 (by decide),
    ((C3_amended (F := ZMod 17)).2.2 .C_KZG_MALLOC).1⟩

/-- `hex::decode` fails whenever the input contains a non-hexadecimal
character. -/
theorem Hex.decode_eq_none_of_mem (c : Char) (hval : Hex.hexVal c = none) :
    ∀ l : List Char, c ∈ l → Hex.decode l = none
  | [], h => absurd h (List.not_mem_nil c)
  | [_], _ => rfl
  | c1 :: c2 :: rest, h => by
    rcases List.mem_cons.mp h with h1 | h2
    · subst h1
      cases hv2 : Hex.hexVal c2 <;>
        cases hr : Hex.decode rest <;>
          simp [Hex.decode, hval, hv2, hr]
    rcases List.mem_cons.mp h2 with h1 | h3
    · subst h1
      cases hv1 : Hex.hexVal c1 <;>
        cases hr : Hex.decode rest <;>
          simp [Hex.decode, hval, hv1, hr]
    · have ih := Hex.decode_eq_none_of_mem c hval rest h3
      cases hv1 : Hex.hexVal c1 <;>
        cases hv2 : Hex.hexVal c2 <;>
          simp [Hex.decode, hv1, hv2, ih]

/-- C9: the `from_hex` constructors of `Blob`, `Bytes32` and `Bytes48`
panic (modelled `none`) on every input shorter than two bytes (the
slice `hex_str[2..]` is out of bounds) and on every input whose content
after the first two characters contains a non-hexadecimal character
(the `unwrap` of the failed `hex::decode`). -/
theorem C9_from_hex_panics :
    (∀ s : List Char, s.length < 2 →
      Bindings.Blob.from_hex s = none
      ∧ Bindings.Bytes32.from_hex s = none
      ∧ Bindings.Bytes48.from_hex s = none)
    ∧ (∀ s : List Char, ∀ c ∈ s.drop 2, Hex.hexVal c = none →
      Bindings.Blob.from_hex s = none
      ∧ Bindings.Bytes32.from_hex s = none
      ∧ Bindings.Bytes48.from_hex s = none) := by
  constructor
  · intro s hs
    refine ⟨?_, ?_, ?_⟩ <;>
      simp [Bindings.Blob.from_hex, Bindings.Bytes32.from_hex,
        Bindings.Bytes48.from_hex, hs]
  · intro s c hc hval
    have hdec : Hex.decode (s.drop 2) = none :=
      Hex.decode_eq_none_of_mem c hval _ hc
    refine ⟨?_, ?_, ?_⟩ <;>
      simp [Bindings.Blob.from_hex, Bindings.Bytes32.from_hex,
        Bindings.Bytes48.from_hex, hdec]

/-- Witness for C9: the one-character string panics in all three
constructors, and so does a `0x`-prefixed string with the non-hex
character `z`. -/
theorem C9_witness :
    (Bindings.Blob.from_hex ['a'] = none
      ∧ Bindings.Bytes32.from_hex ['a'] = none
      ∧ Bindings.Bytes48.from_hex ['a'] = none)
    ∧ (Bindings.Blob.from_hex ['0', 'x', 'z', 'z'] = none
      ∧ Bindings.Bytes32.from_hex ['0', 'x', 'z', 'z'] = none
      ∧ Bindings.Bytes48.from_hex ['0', 'x', 'z', 'z'] = none) :=
  ⟨C9_from_hex_panics.1 ['a'] (by decide),
    C9_from_hex_panics.2 ['0', 'x', 'z', 'z'] 'z' (by decide) (by decide)⟩

/-- Decoding a lowercase nibble digit recovers the nibble. -/
theorem Hex.hexVal_encodeNibble : ∀ n < 16, Hex.hexVal (Hex.encodeNibble n) = some n := by
  decide

/-- The nibble digits are lowercase hex digits (in particular none of
them is `x`). -/
theorem Hex.encodeNibble_mem_lowercase :
    ∀ n < 16, SerdeHelpers.isLowercaseHexDigit (Hex.encodeNibble n) = true := by
  decide

/-- `hex::decode` inverts `hex::encode` on byte values. -/
theorem Hex.decode_encode : ∀ bytes : List Nat, (∀ b ∈ bytes, b < 256) →
    Hex.decode (Hex.encode bytes) = some bytes
  | [], _ => rfl
  | b :: bs, h => by
    have hb : b < 256 := h b (List.mem_cons_self b bs)
    have hhi : Hex.hexVal (Hex.encodeNibble (b / 16)) = some (b / 16) :=
      Hex.hexVal_encodeNibble (b / 16) (Nat.div_lt_of_lt_mul hb)
    have hlo : Hex.hexVal (Hex.encodeNibble (b % 16)) = some (b % 16) :=
      Hex.hexVal_encodeNibble (b % 16) (Nat.mod_lt b (by norm_num))
    have ih : Hex.decode (Hex.encode bs) = some bs :=
      Hex.decode_encode bs fun x hx => h x (List.mem_cons_of_mem b hx)
    simp [Hex.encode, Hex.decode, hhi, hlo, ih, Nat.div_add_mod]

/-- Every character of an encoded byte string is a lowercase hex digit. -/
theorem Hex.encode_mem_lowercase : ∀ bytes : List Nat, (∀ b ∈ bytes, b < 256) →
    ∀ c ∈ Hex.encode bytes, SerdeHelpers.isLowercaseHexDigit c = true
  | [], _, c, hc => absurd hc (List.not_mem_nil c)
  | b :: bs, h, c, hc => by
    have hb : b < 256 := h b (List.mem_cons_self b bs)
    rcases List.mem_cons.mp hc with h1 | h2
    · exact h1 ▸ Hex.encodeNibble_mem_lowercase (b / 16) (Nat.div_lt_of_lt_mul hb)
    rcases List.mem_cons.mp h2 with h1 | h3
    · exact h1 ▸ Hex.encodeNibble_mem_lowercase (b % 16) (Nat.mod_lt b (by norm_num))
    · exact Hex.encode_mem_lowercase bs
        (fun x hx => h x (List.mem_cons_of_mem b hx)) c h3

/-- The deserializers' prefix handling: the `0x`-prefixed serialization
is stripped, and a bare hex string (which cannot begin with `0x`, since
`x` is not a hex digit) is passed through whole. -/
theorem SerdeHelpers.decodeHexField_inverts (bytes : List Nat)
    (h : ∀ b ∈ bytes, b < 256) :
    SerdeHelpers.decodeHexField (SerdeHelpers.serialize_bytes bytes) = some bytes
    ∧ SerdeHelpers.decodeHexField (Hex.encode bytes) = some bytes := by
  have hdec := Hex.decode_encode bytes h
  constructor
  · simp [SerdeHelpers.decodeHexField, SerdeHelpers.serialize_bytes,
      SerdeHelpers.stripPrefix0x, hdec]
  · cases bytes with
    | nil =>
      simp [SerdeHelpers.decodeHexField, SerdeHelpers.stripPrefix0x,
        Hex.encode, Hex.decode]
    | cons b bs =>
      have hblt : b < 256 := h b (List.mem_cons_self b bs)
      have hx : Hex.encodeNibble (b % 16) ≠ 'x' := by
        have hmem := Hex.encodeNibble_mem_lowercase (b % 16)
          (Nat.mod_lt b (by norm_num))
        intro hcontra
        rw [hcontra] at hmem
        exact absurd hmem (by decide)
      have hstrip : SerdeHelpers.stripPrefix0x (Hex.encode (b :: bs))
          = Hex.encode (b :: bs) := by
        show SerdeHelpers.stripPrefix0x
            (Hex.encodeNibble (b / 16) :: Hex.encodeNibble (b % 16) :: Hex.encode bs)
          = Hex.encodeNibble (b / 16) :: Hex.encodeNibble (b % 16) :: Hex.encode bs
        simp [SerdeHelpers.stripPrefix0x, hx]
      rw [SerdeHelpers.decodeHexField, hstrip, hdec]

/-- C10: for `Blob`, `Bytes32`, `KzgCommitment` and `KzgProof`, serde
deserialization inverts serialization; the serialized form is `0x`
followed by the lowercase hex digits of the bytes; and deserialization
accepts the hex string with or without the `0x` prefix. -/
theorem C10_serde_roundtrip :
    (∀ v : Bindings.Blob, v.bytes.length = BYTES_PER_BLOB →
      (∀ b ∈ v.bytes, b < 256) →
      SerdeHelpers.blobSerialize v = '0' :: 'x' :: Hex.encode v.bytes
      ∧ (∀ c ∈ Hex.encode v.bytes, SerdeHelpers.isLowercaseHexDigit c = true)
      ∧ SerdeHelpers.blobDeserialize (SerdeHelpers.blobSerialize v) = some v
      ∧ SerdeHelpers.blobDeserialize (Hex.encode v.bytes) = some v)
    ∧ (∀ v : Bindings.Bytes32, v.bytes.length = 32 → (∀ b ∈ v.bytes, b < 256) →
      SerdeHelpers.bytes32Serialize v = '0' :: 'x' :: Hex.encode v.bytes
      ∧ (∀ c ∈ Hex.encode v.bytes, SerdeHelpers.isLowercaseHexDigit c = true)
      ∧ SerdeHelpers.bytes32Deserialize (SerdeHelpers.bytes32Serialize v) = some v
      ∧ SerdeHelpers.bytes32Deserialize (Hex.encode v.bytes) = some v)
    ∧ (∀ v : Bindings.KZGCommitment, v.bytes.length = BYTES_PER_COMMITMENT →
      (∀ b ∈ v.bytes, b < 256) →
      SerdeHelpers.commitmentSerialize v = '0' :: 'x' :: Hex.encode v.bytes
      ∧ (∀ c ∈ Hex.encode v.bytes, SerdeHelpers.isLowercaseHexDigit c = true)
      ∧ SerdeHelpers.commitmentDeserialize (SerdeHelpers.commitmentSerialize v)
        = some v
      ∧ SerdeHelpers.commitmentDeserialize (Hex.encode v.bytes) = some v)
    ∧ (∀ v : Bindings.KZGProof, v.bytes.length = BYTES_PER_PROOF →
      (∀ b ∈ v.bytes, b < 256) →
      SerdeHelpers.proofSerialize v = '0' :: 'x' :: Hex.encode v.bytes
      ∧ (∀ c ∈ Hex.encode v.bytes, SerdeHelpers.isLowercaseHexDigit c = true)
      ∧ SerdeHelpers.proofDeserialize (SerdeHelpers.proofSerialize v) = some v
      ∧ SerdeHelpers.proofDeserialize (Hex.encode v.bytes) = some v) := by
  refine ⟨?_, ?_, ?_, ?_⟩
  · intro v hlen hrange
    obtain ⟨h1, h2⟩ := SerdeHelpers.decodeHexField_inverts v.bytes hrange
    simp only [SerdeHelpers.serialize_bytes] at h1
    refine ⟨rfl, Hex.encode_mem_lowercase v.bytes hrange, ?_, ?_⟩ <;>
      simp [SerdeHelpers.blobDeserialize, SerdeHelpers.blobSerialize,
        SerdeHelpers.serialize_bytes, h1, h2, Bindings.Blob.from_bytes, hlen,
        Except.toOption]
  · intro v hlen hrange
    obtain ⟨h1, h2⟩ := SerdeHelpers.decodeHexField_inverts v.bytes hrange
    simp only [SerdeHelpers.serialize_bytes] at h1
    refine ⟨rfl, Hex.encode_mem_lowercase v.bytes hrange, ?_, ?_⟩ <;>
      simp [SerdeHelpers.bytes32Deserialize, SerdeHelpers.bytes32Serialize,
        SerdeHelpers.serialize_bytes, h1, h2, Bindings.Bytes32.from_bytes, hlen,
        Except.toOption]
  · intro v hlen hrange
    obtain ⟨h1, h2⟩ := SerdeHelpers.decodeHexField_inverts v.bytes hrange
    simp only [SerdeHelpers.serialize_bytes] at h1
    refine ⟨rfl, Hex.encode_mem_lowercase v.bytes hrange, ?_, ?_⟩ <;>
      simp [SerdeHelpers.commitmentDeserialize, SerdeHelpers.commitmentSerialize,
        SerdeHelpers.serialize_bytes, h1, h2, Bindings.KZGCommitment.from_bytes,
        hlen, Except.toOption]
  · intro v hlen hrange
    obtain ⟨h1, h2⟩ := SerdeHelpers.decodeHexField_inverts v.bytes hrange
    simp only [SerdeHelpers.serialize_bytes] at h1
    refine ⟨rfl, Hex.encode_mem_lowercase v.bytes hrange, ?_, ?_⟩ <;>
      simp [SerdeHelpers.proofDeserialize, SerdeHelpers.proofSerialize,
        SerdeHelpers.serialize_bytes, h1, h2, Bindings.KZGProof.from_bytes, hlen,
        Except.toOption]

/-- Witness for C10: concrete round trips through serialization for all
four types (an all-zero blob and 32/48-byte strings). -/
theorem C10_witness :
    SerdeHelpers.blobDeserialize
      (SerdeHelpers.blobSerialize { bytes := List.replicate 131072 0 })
      = some { bytes := List.replicate 131072 0 }
    ∧ SerdeHelpers.bytes32Deserialize
      (SerdeHelpers.bytes32Serialize { bytes := List.replicate 32 0 })
      = some { bytes := List.replicate 32 0 }
    ∧ SerdeHelpers.commitmentDeserialize
      (SerdeHelpers.commitmentSerialize { bytes := List.replicate 48 0 })
      = some { bytes := List.replicate 48 0 }
    ∧ SerdeHelpers.proofDeserialize
      (SerdeHelpers.proofSerialize { bytes := List.replicate 48 0 })
      = some { bytes := List.replicate 48 0 } :=
  ⟨(C10_serde_roundtrip.1 { bytes := List.replicate 131072 0 }
      (by rw [List.length_replicate]; rfl)
      (fun b hb => by rw [List.eq_of_mem_replicate hb]; norm_num)).2.2.1,
    (C10_serde_roundtrip.2.1 { bytes := List.replicate 32 0 }
      (by rw [List.length_replicate])
      (fun b hb => by rw [List.eq_of_mem_replicate hb]; norm_num)).2.2.1,
    (C10_serde_roundtrip.2.2.1 { bytes := List.replicate 48 0 }
      (by rw [List.length_replicate]; rfl)
      (fun b hb => by rw [List.eq_of_mem_replicate hb]; norm_num)).2.2.1,
    (C10_serde_roundtrip.2.2.2 { bytes := List.replicate 48 0 }
      (by rw [List.length_replicate]; rfl)
      (fun b hb => by rw [List.eq_of_mem_replicate hb]; norm_num)).2.2.1⟩

/-- `getD` of a map over `List.range`. -/
theorem getD_map_range {α : Type} (f : Nat → α) (m i : Nat) (d : α) (h : i < m) :
    ((List.range m).map f).getD i d = f i := by
  have hlen : i < ((List.range m).map f).length := by simpa using h
  rw [List.getD_eq_getElem _ _ hlen, List.getElem_map, List.getElem_range]

/-- Splitting a flat index into cell and offset: the quotient. -/
theorem cell_div_self (k fpc j : Nat) (h : k < fpc) : (j * fpc + k) / fpc = j := by
  rw [add_comm, Nat.add_mul_div_right _ _ (Nat.pos_of_ne_zero (by omega)),
    Nat.div_eq_of_lt h, zero_add]

/-- Splitting a flat index into cell and offset: the remainder. -/
theorem cell_mod_self (k fpc j : Nat) (h : k < fpc) : (j * fpc + k) % fpc = k := by
  rw [add_comm, Nat.add_mul_mod_self_right, Nat.mod_eq_of_lt h]

open Polynomial in
/-- The modelled barycentric evaluation is evaluation of the
interpolating polynomial. -/
theorem Core.evalPolyAt_eq_interp {F : Type} [Field F] [DecidableEq F]
    (st : Core.Setup F) (b : Nat → F)
    (hinj : Set.InjOn st.omega (Finset.range st.n)) (x : F) :
    Core.evalPolyAt st b x
      = (Lagrange.interpolate (Finset.range st.n) st.omega b).eval x := by
  set p := Lagrange.interpolate (Finset.range st.n) st.omega b with hp
  have hpdeg : p.degree < st.n := by
    simpa using Lagrange.degree_interpolate_lt b hinj
  unfold Core.evalPolyAt
  rw [← Core.sum_eval_mul_lagBasisAt st.omega st.n hinj p hpdeg x]
  refine Finset.sum_congr rfl fun i hi => ?_
  rw [Lagrange.eval_interpolate_at_node b hinj hi]

open Polynomial in
/-- C2: for every valid blob, `compute_cells_and_kzg_proofs` produces
the cells and proofs, and `recover_cells_and_kzg_proofs` applied to any
subset of at least `numCells / 2` distinct cell indices with their cell
contents returns the identical full set of cells and proofs, while any
call providing fewer than `numCells / 2` cells fails with `BADARGS`. -/
theorem C2_cell_recovery {F : Type} [Field F] [DecidableEq F]
    (cs : Core.CellSetup F) (order : Nat) (bytes : List Nat)
    (hfpc : 0 < cs.fieldsPerCell)
    (heven : cs.numCells % 2 = 0)
    (hsize : cs.numCells * cs.fieldsPerCell = 2 * cs.base.n)
    (hbase : ∀ i < cs.base.n, ∀ j < cs.base.n,
      cs.base.omega i = cs.base.omega j → i = j)
    (hext : ∀ i < 2 * cs.base.n, ∀ j < 2 * cs.base.n,
      cs.omegaExt i = cs.omegaExt j → i = j)
    (hvalid : Core.blobValid cs.base.n order bytes = true) :
    Core.compute_cells_and_kzg_proofs_c cs order bytes
      = (.C_KZG_OK, (Core.cellsOfPoly cs (Core.blobElems bytes),
          Core.proofsOfPoly cs (Core.blobElems bytes)))
    ∧ (∀ l : List Nat, l.Nodup → (∀ j ∈ l, j < cs.numCells) →
        cs.numCells / 2 ≤ l.length →
        Core.recover_cells_and_kzg_proofs_c cs l
          (l.map fun j =>
            (Core.compute_cells_and_kzg_proofs_c cs order bytes).2.1.getD j [])
          = .ok (Core.compute_cells_and_kzg_proofs_c cs order bytes).2)
    ∧ (∀ (idxs : List Nat) (cls : List (List F)),
        idxs.length < cs.numCells / 2 →
        Core.recover_cells_and_kzg_proofs_c cs idxs cls
          = .error .C_KZG_BADARGS) := by
  have hcomp : Core.compute_cells_and_kzg_proofs_c cs order bytes
      = (.C_KZG_OK, (Core.cellsOfPoly cs (Core.blobElems bytes),
          Core.proofsOfPoly cs (Core.blobElems bytes))) := by
    simp [Core.compute_cells_and_kzg_proofs_c, hvalid]
  refine ⟨hcomp, ?_, ?_⟩
  · -- recovery from any subset of at least half of the cells
    intro l hnodup hrange hcount
    rw [hcomp]
    have hinjB : Set.InjOn cs.base.omega (Finset.range cs.base.n) := by
      intro i hi j hj h
      exact hbase i (by simpa using hi) j (by simpa using hj) h
    set p := Lagrange.interpolate (Finset.range cs.base.n) cs.base.omega
      (Core.blobElems bytes) with hp
    have hpdeg : p.degree < cs.base.n := by
      simpa using Lagrange.degree_interpolate_lt _ hinjB
    have hdvd : 2 ∣ cs.numCells := Nat.dvd_of_mod_eq_zero heven
    have hhalf : cs.numCells / 2 * cs.fieldsPerCell = cs.base.n := by
      have h1 : cs.numCells / 2 * 2 = cs.numCells := Nat.div_mul_cancel hdvd
      have h2 : 2 * (cs.numCells / 2 * cs.fieldsPerCell) = 2 * cs.base.n := by
        calc 2 * (cs.numCells / 2 * cs.fieldsPerCell)
            = cs.numCells / 2 * 2 * cs.fieldsPerCell := by ring
          _ = cs.numCells * cs.fieldsPerCell := by rw [h1]
          _ = 2 * cs.base.n := hsize
      exact Nat.eq_of_mul_eq_mul_left (by norm_num) h2
    have hnN : cs.base.n ≤ l.length * cs.fieldsPerCell := by
      calc cs.base.n = cs.numCells / 2 * cs.fieldsPerCell := hhalf.symm
        _ ≤ l.length * cs.fieldsPerCell := Nat.mul_le_mul_right _ hcount
    set cells := l.map
      (fun j => (Core.cellsOfPoly cs (Core.blobElems bytes)).getD j []) with hcells
    have hclen : cells.length = l.length := by
      rw [hcells, List.length_map]
    have hcellj : ∀ j < cs.numCells,
        (Core.cellsOfPoly cs (Core.blobElems bytes)).getD j []
          = (List.range cs.fieldsPerCell).map
            (fun k => Core.extEval cs (Core.blobElems bytes)
              (j * cs.fieldsPerCell + k)) := by
      intro j hj
      unfold Core.cellsOfPoly
      exact getD_map_range _ _ _ _ hj
    -- the guards all pass
    have hg1 : ¬l.length ≠ cells.length := fun hne => hne hclen.symm
    have hg2 : ¬l.length < cs.numCells / 2 := Nat.not_lt.mpr hcount
    have hall1 : l.all (· < cs.numCells) = true :=
      List.all_eq_true.mpr fun x hx => by simpa using hrange x hx
    have hall2 : (cells.all fun c => c.length = cs.fieldsPerCell) = true := by
      refine List.all_eq_true.mpr fun c hc => ?_
      rw [hcells] at hc
      obtain ⟨j, hj, rfl⟩ := List.mem_map.mp hc
      rw [hcellj j (hrange j hj)]
      simp
    -- the supplied points are the graph of `p` at distinct nodes
    have hptslen : (Core.recoveryPoints cs l cells).length
        = l.length * cs.fieldsPerCell := by
      unfold Core.recoveryPoints
      simp
    have hpt : ∀ t, t < l.length * cs.fieldsPerCell →
        (Core.recoveryPoints cs l cells).getD t (0, 0)
          = (cs.omegaExt (l.getD (t / cs.fieldsPerCell) 0 * cs.fieldsPerCell
              + t % cs.fieldsPerCell),
            (cells.getD (t / cs.fieldsPerCell) []).getD
              (t % cs.fieldsPerCell) 0) := by
      intro t ht
      unfold Core.recoveryPoints
      exact getD_map_range _ _ _ _ ht
    have hdivlt : ∀ t, t < l.length * cs.fieldsPerCell →
        t / cs.fieldsPerCell < l.length := by
      intro t ht
      exact Nat.div_lt_of_lt_mul (by rw [Nat.mul_comm] at ht; exact ht)
    have hjlt : ∀ t, t < l.length * cs.fieldsPerCell →
        l.getD (t / cs.fieldsPerCell) 0 < cs.numCells := by
      intro t ht
      refine hrange _ ?_
      have hd := hdivlt t ht
      rw [List.getD_eq_getElem _ _ hd]
      exact List.getElem_mem _
    have hglt : ∀ t, t < l.length * cs.fieldsPerCell →
        l.getD (t / cs.fieldsPerCell) 0 * cs.fieldsPerCell
          + t % cs.fieldsPerCell < 2 * cs.base.n := by
      intro t ht
      rw [← hsize]
      calc l.getD (t / cs.fieldsPerCell) 0 * cs.fieldsPerCell + t % cs.fieldsPerCell
          < l.getD (t / cs.fieldsPerCell) 0 * cs.fieldsPerCell + cs.fieldsPerCell :=
            Nat.add_lt_add_left (Nat.mod_lt _ hfpc) _
        _ = (l.getD (t / cs.fieldsPerCell) 0 + 1) * cs.fieldsPerCell := by ring
        _ ≤ cs.numCells * cs.fieldsPerCell :=
            Nat.mul_le_mul_right _ (hjlt t ht)
    have hgetD_inj : ∀ a b : Nat, a < l.length → b < l.length →
        l.getD a 0 = l.getD b 0 → a = b := by
      intro a b ha hb he
      rw [List.getD_eq_getElem _ _ ha, List.getD_eq_getElem _ _ hb] at he
      exact hnodup.getElem_inj_iff.mp he
    have hinjV : Set.InjOn
        (fun i => ((Core.recoveryPoints cs l cells).getD i (0, 0)).1)
        (Finset.range (l.length * cs.fieldsPerCell)) := by
      intro t ht t' ht' he
      have htN : t < l.length * cs.fieldsPerCell := by simpa using ht
      have ht'N : t' < l.length * cs.fieldsPerCell := by simpa using ht'
      simp only [hpt t htN, hpt t' ht'N] at he
      have hgeq := hext _ (hglt t htN) _ (hglt t' ht'N) he
      have hkt : t % cs.fieldsPerCell < cs.fieldsPerCell := Nat.mod_lt _ hfpc
      have hkt' : t' % cs.fieldsPerCell < cs.fieldsPerCell := Nat.mod_lt _ hfpc
      have hjj : l.getD (t / cs.fieldsPerCell) 0 = l.getD (t' / cs.fieldsPerCell) 0 := by
        have := congrArg (· / cs.fieldsPerCell) hgeq
        simpa [cell_div_self _ _ _ hkt, cell_div_self _ _ _ hkt'] using this
      have hkk : t % cs.fieldsPerCell = t' % cs.fieldsPerCell := by
        have := congrArg (· % cs.fieldsPerCell) hgeq
        simpa [cell_mod_self _ _ _ hkt, cell_mod_self _ _ _ hkt'] using this
      have hdd : t / cs.fieldsPerCell = t' / cs.fieldsPerCell :=
        hgetD_inj _ _ (hdivlt t htN) (hdivlt t' ht'N) hjj
      calc t = cs.fieldsPerCell * (t / cs.fieldsPerCell) + t % cs.fieldsPerCell :=
            (Nat.div_add_mod t cs.fieldsPerCell).symm
        _ = cs.fieldsPerCell * (t' / cs.fieldsPerCell) + t' % cs.fieldsPerCell := by
            rw [hdd, hkk]
        _ = t' := Nat.div_add_mod t' cs.fieldsPerCell
    have hval : ∀ t, t < l.length * cs.fieldsPerCell →
        ((Core.recoveryPoints cs l cells).getD t (0, 0)).2
          = p.eval (((Core.recoveryPoints cs l cells).getD t (0, 0)).1) := by
      intro t ht
      rw [hpt t ht]
      have hd := hdivlt t ht
      have hcelli : cells.getD (t / cs.fieldsPerCell) []
          = (Core.cellsOfPoly cs (Core.blobElems bytes)).getD
            (l.getD (t / cs.fieldsPerCell) 0) [] := by
        rw [hcells]
        have hlen2 : t / cs.fieldsPerCell
            < (l.map (fun j =>
                (Core.cellsOfPoly cs (Core.blobElems bytes)).getD j [])).length := by
          simpa using hd
        rw [List.getD_eq_getElem _ _ hlen2, List.getElem_map,
          ← List.getD_eq_getElem l 0 hd]
      rw [hcelli, hcellj _ (hjlt t ht),
        getD_map_range _ _ _ _ (Nat.mod_lt _ hfpc)]
      rw [Core.extEval, Core.evalPolyAt_eq_interp _ _ hinjB, ← hp]
    have hrec : ∀ x : F,
        Core.lagPtsEval (Core.recoveryPoints cs l cells) x = p.eval x := by
      intro x
      have hdegN : p.degree < ((l.length * cs.fieldsPerCell : Nat) : WithBot Nat) :=
        lt_of_lt_of_le hpdeg (by exact_mod_cast hnN)
      unfold Core.lagPtsEval
      rw [hptslen]
      rw [← Core.sum_eval_mul_lagBasisAt
        (fun i => ((Core.recoveryPoints cs l cells).getD i (0, 0)).1)
        (l.length * cs.fieldsPerCell) hinjV p hdegN x]
      refine Finset.sum_congr rfl fun t htmem => ?_
      rw [hval t (Finset.mem_range.mp htmem)]
    have hfun : ∀ t : Nat,
        Core.lagPtsEval (Core.recoveryPoints cs l cells) (cs.omegaExt t)
          = Core.extEval cs (Core.blobElems bytes) t := by
      intro t
      rw [hrec, Core.extEval, Core.evalPolyAt_eq_interp _ _ hinjB, ← hp]
    -- discharge the guards and compare the outputs
    unfold Core.recover_cells_and_kzg_proofs_c
    rw [if_neg hg1, if_neg hg2, if_neg (not_not_intro hnodup),
      if_neg (not_not_intro hall1), if_neg (not_not_intro hall2)]
    refine congrArg Except.ok ?_
    have hc1 : ((List.range cs.numCells).map fun j =>
        (List.range cs.fieldsPerCell).map fun k =>
          Core.lagPtsEval (Core.recoveryPoints cs l cells)
            (cs.omegaExt (j * cs.fieldsPerCell + k)))
        = Core.cellsOfPoly cs (Core.blobElems bytes) := by
      unfold Core.cellsOfPoly
      congr 1
      funext j
      congr 1
      funext k
      exact hfun _
    have hc2 : ((List.range cs.numCells).map
        (cs.proofOf ((List.range (cs.numCells * cs.fieldsPerCell)).map fun t =>
          Core.lagPtsEval (Core.recoveryPoints cs l cells) (cs.omegaExt t))))
        = Core.proofsOfPoly cs (Core.blobElems bytes) := by
      have hevals : ((List.range (cs.numCells * cs.fieldsPerCell)).map fun t =>
          Core.lagPtsEval (Core.recoveryPoints cs l cells) (cs.omegaExt t))
          = Core.extBlob cs (Core.blobElems bytes) := by
        unfold Core.extBlob
        congr 1
        funext t
        exact hfun t
      rw [hevals]
      rfl
    rw [← hc1, ← hc2]
  · -- fewer than half the cells is a hard BADARGS error
    intro idxs cls hlt
    unfold Core.recover_cells_and_kzg_proofs_c
    rcases eq_or_ne idxs.length cls.length with hl | hl
    · have hne : ¬idxs.length ≠ cls.length := fun hne => hne hl
      rw [if_neg hne, if_pos hlt]
    · rw [if_pos hl]

set_option maxRecDepth 10000 in
/-- Witness for C2: over `ZMod 17` with four cells of two elements,
recovery from the two cells `0` and `2` of the computed cells returns
the identical full cell and proof lists, and recovery from a single
cell is a `BADARGS` error. -/
theorem C2_witness :
    Core.recover_cells_and_kzg_proofs_c wCellSetup [0, 2]
      ([0, 2].map fun j =>
        (Core.compute_cells_and_kzg_proofs_c wCellSetup 17 wBytes).2.1.getD j [])
      = .ok (Core.compute_cells_and_kzg_proofs_c wCellSetup 17 wBytes).2
    ∧ Core.recover_cells_and_kzg_proofs_c wCellSetup [0]
        ([] : List (List (ZMod 17))) = .error .C_KZG_BADARGS :=
  ⟨(C2_cell_recovery wCellSetup 17 wBytes (by decide) (by decide) (by decide)
      (by decide) (by decide) (by decide)).2.1 [0, 2] (by decide) (by decide)
      (by decide),
    (C2_cell_recovery wCellSetup 17 wBytes (by decide) (by decide) (by decide)
      (by decide) (by decide) (by decide)).2.2 [0] [] (by decide)⟩
